import Mathlib

/-!
Shallow embedding of `src/app/main.py` of the `deployer` repository.

Strings captured from external commands are modelled as `List Char`
(Python `str` is a sequence of code points; `subprocess.run(text=True)`
uses universal newlines, so `\r\n` / `\r` have been translated to `\n`
before the pipeline sees the text).  Whitespace is modelled by the ASCII
whitespace characters recognised by Python's `str.isspace` / regex `\s`
(`' '`, `\t`, `\n`, `\r`, `\x0b`, `\x0c`); characters outside ASCII are
outside the model.
-/

namespace Deployer

set_option maxRecDepth 100000

/-- Python whitespace (`\s`, `str.strip`, `str.isspace`), ASCII fragment. -/
def pyIsSpace (c : Char) : Bool :=
  c = ' ' || c = '\t' || c = '\n' || c = '\r' || c = '\x0b' || c = '\x0c'

/-- Characters allowed in the value group `[^\n\r]` of `SENSITIVE_RE`. -/
def notNL (c : Char) : Bool := !(c = '\n' || c = '\r')

/-- Characters matched by `[^\s:=]` (first part of the key group). -/
def keyTokChar (c : Char) : Bool := !pyIsSpace c && !(c = ':') && !(c = '=')

/-- Characters matched by `[:=]` (the key/value separator). -/
def isSep (c : Char) : Bool := c = ':' || c = '='

/-- Python `str.strip()` on the ASCII fragment. -/
def pyStripL (l : List Char) : List Char :=
  ((l.dropWhile pyIsSpace).reverse.dropWhile pyIsSpace).reverse

/-- Python `str.strip()` wrapped on `String`. -/
def pyStrip (s : String) : String := String.mk (pyStripL s.data)

/-- Drop trailing whitespace (the `\s*` absorbed between the lazy
`[^:=]*?` group and the separator). -/
def dropTrailingWs (l : List Char) : List Char :=
  (l.reverse.dropWhile pyIsSpace).reverse

/-- The keyword alternation `(?:secret|token|password|passwd|pwd|key)`
of `SENSITIVE_RE`, in source order, lowercase. -/
def sensitiveKeywords : List (List Char) :=
  ["secret".data, "token".data, "password".data, "passwd".data, "pwd".data, "key".data]

/-- Case-insensitive test that `kw` (already lowercase) starts the text `cs`. -/
def lcPrefEq : List Char → List Char → Bool
  | [], _ => true
  | _ :: _, [] => false
  | k :: ks, c :: cs => (c.toLower = k) && lcPrefEq ks cs

/-- Some sensitive keyword starts at the head of `cs` (case-insensitively). -/
def kwHere (cs : List Char) : Bool :=
  sensitiveKeywords.any (fun kw => lcPrefEq kw cs)

/-- Some sensitive keyword occurs somewhere in `cs` (case-insensitively).
This is the condition under which the key group
`[^\s:=]*(?:secret|…|key)[^:=]*?` can be placed inside the leading
`[^\s:=]`-run of the text: keyword letters are themselves `[^\s:=]`
characters, so a keyword reachable by the key group lies inside that run. -/
def hasKeyword : List Char → Bool
  | [] => false
  | c :: cs => kwHere (c :: cs) || hasKeyword cs

/-- Index of the first `:` or `=` in the text, if any.  The lazy group
`[^:=]*?` cannot step over a separator, so every alternative of the
backtracking search uses this same separator occurrence. -/
def firstSepIdx : List Char → Option Nat
  | [] => none
  | c :: cs => if isSep c then some 0 else (firstSepIdx cs).map (· + 1)

/-- Backtracking of the trailing `\s*` when `([^\n\r]+)` finds no text
after it: the engine hands whitespace characters back one by one from the
end until the value group can start on a non-newline character.  Input is
the whitespace run; the result is the number of characters after the
separator consumed by `\s*` plus the one-character value, if any. -/
def bvAux : List Char → Option Nat
  | [] => none
  | c :: cs => if notNL c then some 0 else (bvAux cs).map (· + 1)

/-- Characters consumed after the separator by `\s*([^\n\r]+)` on the
backtracking path (`u` is the maximal whitespace run when nothing
follows it). -/
def backtrackVal (w2 : List Char) : Option Nat :=
  (bvAux w2.reverse).map (fun i => w2.length - i)

/-- Characters consumed after the separator by `\s*([^\n\r]+)`:
`\s*` greedily takes the maximal whitespace run; the value group then
needs at least one non-newline character. -/
def matchTail (u : List Char) : Option Nat :=
  let w2 := u.takeWhile pyIsSpace
  match u.drop w2.length with
  | [] => backtrackVal w2
  | c :: cs => some (w2.length + ((c :: cs).takeWhile notNL).length)

/-- One attempt of `SENSITIVE_RE` after the leading `\s*` has been
consumed (`t` starts on a non-whitespace character, or is empty).
Returns the captured group 1 and the text left after the whole match.

The backtracking search of the Python engine collapses to this
deterministic computation: the key group lives inside the leading
`[^\s:=]`-run of `t`, all its placements share the first `:`/`=`
occurrence as separator, and group 1 is always the text up to that
separator with trailing whitespace stripped. -/
def matchCore (t : List Char) : Option (List Char × List Char) :=
  if hasKeyword (t.takeWhile keyTokChar) then
    match firstSepIdx t with
    | some s =>
      match matchTail (t.drop (s + 1)) with
      | some k => some (dropTrailingWs (t.take s), t.drop (s + 1 + k))
      | none => none
    | none => none
  else none

/-- Attempt of `SENSITIVE_RE` at a position where `^` holds. -/
def matchAt (cs : List Char) : Option (List Char × List Char) :=
  matchCore (cs.dropWhile pyIsSpace)

/-- The scanning loop of `re.sub`: try a match wherever `^` holds
(position 0 or right after a newline), otherwise copy one character.
Structural recursion on a fuel argument so the kernel can evaluate it;
every match consumes at least one character, so fuel equal to the text
length is always enough (`scanGoF_fuel`). -/
def scanGoF : Nat → List Char → Bool → List Char
  | 0, cs, _ => cs
  | _ + 1, [], _ => []
  | fuel + 1, c :: rest, lineStart =>
    if lineStart then
      match matchAt (c :: rest) with
      | some (g, after) => g ++ ": ***".data ++ scanGoF fuel after false
      | none => c :: scanGoF fuel rest (c = '\n')
    else c :: scanGoF fuel rest (c = '\n')

/-- Model of `SENSITIVE_RE.sub(lambda m: f"{m.group(1)}: ***", text)`. -/
def subSensitive (cs : List Char) : List Char := scanGoF cs.length cs true

/-- The inner `sanitize_output` of `run_command_env`. -/
def sanitize_output (s : String) : String := String.mk (subSensitive s.data)

/-- Join lines with single newlines (inverse of splitting on `\n`). -/
def joinNL : List (List Char) → List Char
  | [] => []
  | [l] => l
  | l :: l' :: ls => l ++ '\n' :: joinNL (l' :: ls)

/-- A line (no `\n`) on which `SENSITIVE_RE` cannot start a match: it has
at least one non-whitespace character (so the leading `\s*` cannot reach
past its end), and the `[^\s:=]`-run at its start holds no sensitive
keyword. -/
def BenignLine (l : List Char) : Prop :=
  (∃ c ∈ l, pyIsSpace c = false) ∧
  hasKeyword ((l.dropWhile pyIsSpace).takeWhile keyTokChar) = false ∧
  ∀ c ∈ l, c ≠ '\n'

/-- The standard sensitive shape of the claim: optional leading
whitespace, a non-empty separator-free whitespace-free key containing a
sensitive keyword, `:` or `=`, then a value that is non-empty, contains a
non-whitespace character and stays on the line. -/
def SensShape (ws0 key : List Char) (sep : Char) (rest : List Char) : Prop :=
  (∀ c ∈ ws0, pyIsSpace c = true ∧ c ≠ '\n') ∧
  key ≠ [] ∧ (∀ c ∈ key, keyTokChar c = true) ∧
  hasKeyword key = true ∧ isSep sep = true ∧
  (∃ c ∈ rest, pyIsSpace c = false) ∧ (∀ c ∈ rest, notNL c = true)

/-- A line that decomposes under `SensShape`. -/
def SensitiveLine (l : List Char) : Prop :=
  ∃ ws0 key sep rest, SensShape ws0 key sep rest ∧ l = ws0 ++ key ++ sep :: rest

/-- Output lines on which the sanitizer is proved to act line by line. -/
def LineOK (l : List Char) : Prop := BenignLine l ∨ SensitiveLine l

/-- Exact list-of-chars begins-with test (helper for `infixOfL`). -/
def lcExactPrefEq : List Char → List Char → Bool
  | [], _ => true
  | _ :: _, [] => false
  | p :: ps, c :: cs => (p = c) && lcExactPrefEq ps cs

/-- Substring test on character lists (used to state what a tail contains). -/
def infixOfL : List Char → List Char → Bool
  | pat, [] => pat.isEmpty
  | pat, c :: cs => lcExactPrefEq pat (c :: cs) || infixOfL pat cs

/-- Substring test wrapped on `String`. -/
def infixOfS (pat s : String) : Bool := infixOfL pat.data s.data

/-! ## run_command_env -/

/-- `TAIL_LIMIT` from the configuration defaults. -/
def TAIL_LIMIT : Nat := 2000

/-- Python `s[-n:]` (the last `n` characters, or all of them when shorter). -/
def takeLastStr (n : Nat) (s : String) : String :=
  String.mk (s.data.drop (s.data.length - n))

/-- Result dictionary built by `run_command_env` for one step. -/
structure StepResult where
  name : String
  ok : Bool
  exit_code : Option Int
  duration_ms : Nat
  tail : String
deriving Repr, DecidableEq

/-- Behaviour of one external `subprocess.run` invocation, as observed by
`run_command_env`: either the process completed (with exit code and
captured streams) or `subprocess.TimeoutExpired` was raised.  Durations
are wall-clock measurements, supplied as data. -/
inductive CmdOutcome where
  | completed (exitCode : Int) (stdout stderr : String) (durationMs : Nat)
  | timedOut (excMsg : String) (durationMs : Nat)

/-- `run_command_env`: run a command, combine stdout and stderr, sanitize,
truncate to the last `TAIL_LIMIT` characters; on `TimeoutExpired` return a
failed StepResult with no exit code and a timeout tail. -/
def run_command_env (name : String) (timeout : Nat) (outcome : CmdOutcome) :
    StepResult :=
  match outcome with
  | .completed ec out err dur =>
    { name := name, ok := ec = 0, exit_code := some ec, duration_ms := dur,
      tail := takeLastStr TAIL_LIMIT (sanitize_output (out ++ err)) }
  | .timedOut msg dur =>
    { name := name, ok := false, exit_code := none, duration_ms := dur,
      tail := "timeout after " ++ toString timeout ++ "s: " ++ msg }

/-! ## Deploy orchestration -/

/-- Split on `\n` (structural recursion; same splitting as
`str.splitlines` up to the trailing empty piece, which the non-empty
filter in `parseServices` removes anyway). -/
def splitNL : List Char → List (List Char)
  | [] => [[]]
  | c :: cs =>
    if c = '\n' then [] :: splitNL cs
    else
      match splitNL cs with
      | [] => [[c]]
      | l :: ls => (c :: l) :: ls

/-- The list comprehension over `status_result["tail"].splitlines()`:
strip each line, keep the non-empty ones. -/
def parseServices (tail : String) : List String :=
  ((splitNL tail.data).map (fun l => String.mk (pyStripL l))).filter
    (fun l => l ≠ "")

/-- Per-step timeouts from `Settings` (defaults from the environment
variable defaults in `Settings.__init__`). -/
structure DeployTimeouts where
  status_timeout : Nat := 60
  config_timeout : Nat := 120
  pull_timeout : Nat := 600
  up_timeout : Nat := 600

/-- Message appended when the status step reports zero running services. -/
def noServicesMsg : String := "\nNo running services found; aborting deploy."

/-- The step sequence of `perform_deploy` from the first command on,
together with the log of commands actually handed to the runner
(name and argument vector), in execution order. -/
def deploySteps (T : DeployTimeouts) (runner : String → CmdOutcome) :
    List StepResult × List (String × List String) :=
  let statusArgs := ["docker", "compose", "ps", "--status=running", "--services"]
  let status0 := run_command_env "status" T.status_timeout (runner "status")
  let services := parseServices status0.tail
  let status1 :=
    if status0.ok = true ∧ services = [] then
      { status0 with ok := false, tail := status0.tail ++ noServicesMsg }
    else status0
  if status1.ok = false then ([status1], [("status", statusArgs)])
  else
    let config := run_command_env "config" T.config_timeout (runner "config")
    let steps2 := [status1, config]
    let log2 := [("status", statusArgs), ("config", ["docker", "compose", "config"])]
    let steps3 :=
      if (steps2.getLastD status1).ok then
        steps2 ++ [run_command_env "pull" T.pull_timeout (runner "pull")]
      else steps2
    let log3 :=
      if (steps2.getLastD status1).ok then
        log2 ++ [("pull", ["docker", "compose", "pull"])]
      else log2
    let steps4 :=
      if (steps3.getLastD status1).ok then
        steps3 ++ [run_command_env "up" T.up_timeout (runner "up")]
      else steps3
    let log4 :=
      if (steps3.getLastD status1).ok then
        log3 ++ [("up", ["docker", "compose", "up", "-d", "--remove-orphans"])]
      else log3
    (steps4, log4)

/-- The JSON envelope of `build_response` (the two wall-clock timestamps
are omitted: they carry no claim-relevant content). -/
structure DeployResponse where
  status_code : Nat
  ok : Bool
  stack : String
  steps : List StepResult
deriving Repr, DecidableEq

/-- `build_response`: overall ok is the conjunction of all steps' ok. -/
def build_response (stack : String) (steps : List StepResult) : DeployResponse :=
  let ok := steps.all (fun s => s.ok)
  { status_code := if ok then 200 else 500, ok := ok, stack := stack, steps := steps }

/-! ## Stack name validation and path resolution -/

/-- `HTTPException(status_code, detail)`. -/
structure HTTPErr where
  status : Nat
  detail : String
deriving Repr, DecidableEq

/-- One character of the class `[A-Za-z0-9_-]`. -/
def stackNameChar (c : Char) : Bool :=
  (('A' ≤ c && c ≤ 'Z') || ('a' ≤ c && c ≤ 'z') || ('0' ≤ c && c ≤ '9')
    || c = '_' || c = '-')

/-- Python `re.match(r"^[A-Za-z0-9_-]+$", name)`: one or more characters
of the class; `$` also matches just before one final newline, so a single
trailing `\n` is tolerated by the source pattern. -/
def stackNameMatches (name : String) : Bool :=
  let l := name.data
  let core := if l.getLast? = some '\n' then l.dropLast else l
  !core.isEmpty && core.all stackNameChar

/-- `validate_stack_name`. -/
def validate_stack_name (stack : String) : Except HTTPErr String :=
  if stackNameMatches stack then .ok stack
  else .error ⟨400, "invalid stack name"⟩

/-- Abstraction of the filesystem operations used by `get_stack_path`.
Canonical absolute paths are component lists (`/a/b` is `["a", "b"]`).
`resolve` models `Path.resolve()` (never raises); `resolveStrict` models
`Path.resolve(strict=True)` (`none` when `FileNotFoundError` is raised). -/
structure FS where
  resolve : List String → List String
  resolveStrict : List String → Option (List String)
  pathExists : List String → Bool
  isDir : List String → Bool

/-- `a ∈ b.parents` for canonical absolute paths: `a` is a proper leading
segment sequence of `b`. -/
def isParentOf : List String → List String → Bool
  | [], [] => false
  | [], _ :: _ => true
  | _ :: _, [] => false
  | x :: xs, y :: ys => (x = y) && isParentOf xs ys

/-- `get_stack_path`: canonicalize the candidate, re-resolve the stacks
root strictly, enforce containment, existence, directory-ness and the
presence of `docker-compose.yml`. -/
def get_stack_path (fs : FS) (stacks_root : List String) (stack : String) :
    Except HTTPErr (List String) :=
  let stack_path := fs.resolve (stacks_root ++ [stack])
  match fs.resolveStrict stacks_root with
  | none => .error ⟨500, "stacks root missing"⟩
  | some settings_root =>
    if isParentOf settings_root stack_path = false ∧ stack_path ≠ settings_root then
      .error ⟨400, "invalid stack path"⟩
    else if fs.pathExists stack_path = false ∨ fs.isDir stack_path = false then
      .error ⟨404, "stack not found"⟩
    else if fs.pathExists (stack_path ++ ["docker-compose.yml"]) = false then
      .error ⟨400, "docker-compose.yml missing"⟩
    else .ok stack_path

/-- `get_docker_env`: per-stack registry credential directory override. -/
def get_docker_env (fs : FS) (stack_path : List String) : Option (List String) :=
  if fs.pathExists (stack_path ++ [".docker", "config.json"]) then
    some (stack_path ++ [".docker"])
  else none

/-- `perform_deploy`: validation, resolution, then the step pipeline.
The second component is the list of external commands actually executed
for the request. -/
def perform_deploy (fs : FS) (stacks_root : List String) (T : DeployTimeouts)
    (runner : String → CmdOutcome) (stack : String) :
    Except HTTPErr DeployResponse × List (String × List String) :=
  match validate_stack_name stack with
  | .error e => (.error e, [])
  | .ok _ =>
    match get_stack_path fs stacks_root stack with
    | .error e => (.error e, [])
    | .ok stack_path =>
      let _docker_env := get_docker_env fs stack_path
      let (steps, log) := deploySteps T runner
      (.ok (build_response stack steps), log)

/-! ## Rate limiter -/

/-- `RATE_LIMIT_WINDOW_SECONDS`.  Timestamps are modelled as integers:
the limiter only subtracts this constant from `now` and compares, so any
ordered time scale embeds; `time.time()` floats are outside the model. -/
def RATE_LIMIT_WINDOW_SECONDS : Int := 60

/-- The eviction loop: `while bucket and bucket[0] < now - window: popleft()`. -/
def rate_limit_evict (bucket : List Int) (now : Int) : List Int :=
  bucket.dropWhile (fun t => t < now - RATE_LIMIT_WINDOW_SECONDS)

/-- Admission decision and updated bucket for one request of one client. -/
def rate_limit_allow (quota : Nat) (bucket : List Int) (now : Int) :
    Bool × List Int :=
  let b := rate_limit_evict bucket now
  if quota ≤ b.length then (false, b) else (true, b ++ [now])

/-! ## HTTP response shapes and handlers -/

/-- JSON values appearing in the modelled response bodies. -/
inductive BVal where
  | b (x : Bool)
  | s (x : String)
deriving Repr, DecidableEq

/-- An HTTP response with a JSON object body. -/
structure Resp where
  status_code : Nat
  body : List (String × BVal)
deriving Repr, DecidableEq

/-- The body shape `{"ok": false, "detail": msg}` of the error handlers. -/
def errBody (msg : String) : List (String × BVal) :=
  [("ok", .b false), ("detail", .s msg)]

/-- The `JSONResponse` returned directly by the rate limiting middleware. -/
def rate_limited_response : Resp :=
  { status_code := 429, body := [("detail", .s "rate limit exceeded")] }

/-- The rate limiting middleware for one request of one client: either the
429 response, or the downstream response, together with the new bucket. -/
def rate_limiter (quota : Nat) (bucket : List Int) (now : Int) (next : Resp) :
    Resp × List Int :=
  let r := rate_limit_allow quota bucket now
  (if r.1 then next else rate_limited_response, r.2)

/-- Fold a sequence of request times of one client through the limiter,
collecting the admission decisions. -/
def rate_limit_run (quota : Nat) (times : List Int) : List Bool × List Int :=
  times.foldl (fun acc now =>
    let r := rate_limit_allow quota acc.2 now
    (acc.1 ++ [r.1], r.2)) ([], [])

/-- `http_exception_handler`. -/
def http_exception_handler (e : HTTPErr) : Resp :=
  { status_code := e.status, body := errBody e.detail }

/-- `unhandled_exception_handler`: body is independent of the exception
(the message is only logged). -/
def unhandled_exception_handler (_excMsg : String) : Resp :=
  { status_code := 500, body := errBody "internal server error" }

/-! ## HMAC-SHA-256 (`compute_signature` / `verify_signature`)

The source delegates to `hashlib` / `hmac`; the functions are implemented
here so that the signature claims are about the real algorithm.  Bytes
are `Nat` values below 256; 32-bit words are `Nat` values reduced
modulo `2^32`. -/

/-- ASCII bytes of a string (`str.encode()` for ASCII text). -/
def strBytes (s : String) : List Nat := s.data.map (fun c => c.toNat)

/-- 2^32. -/
def M32 : Nat := 4294967296

/-- Right rotation of a 32-bit word. -/
def rotr32 (n x : Nat) : Nat := ((x >>> n) ||| (x <<< (32 - n))) % M32

/-- SHA-256 message schedule sigma0. -/
def ssig0 (x : Nat) : Nat := (rotr32 7 x) ^^^ (rotr32 18 x) ^^^ (x >>> 3)

/-- SHA-256 message schedule sigma1. -/
def ssig1 (x : Nat) : Nat := (rotr32 17 x) ^^^ (rotr32 19 x) ^^^ (x >>> 10)

/-- SHA-256 round Sigma0. -/
def bsig0 (x : Nat) : Nat := (rotr32 2 x) ^^^ (rotr32 13 x) ^^^ (rotr32 22 x)

/-- SHA-256 round Sigma1. -/
def bsig1 (x : Nat) : Nat := (rotr32 6 x) ^^^ (rotr32 11 x) ^^^ (rotr32 25 x)

/-- SHA-256 round constants. -/
def shaK : List Nat :=
  [1116352408, 1899447441, 3049323471, 3921009573, 961987163, 1508970993,
   2453635748, 2870763221, 3624381080, 310598401, 607225278, 1426881987,
   1925078388, 2162078206, 2614888103, 3248222580, 3835390401, 4022224774,
   264347078, 604807628, 770255983, 1249150122, 1555081692, 1996064986,
   2554220882, 2821834349, 2952996808, 3210313671, 3336571891, 3584528711,
   113926993, 338241895, 666307205, 773529912, 1294757372, 1396182291,
   1695183700, 1986661051, 2177026350, 2456956037, 2730485921, 2820302411,
   3259730800, 3345764771, 3516065817, 3600352804, 4094571909, 275423344,
   430227734, 506948616, 659060556, 883997877, 958139571, 1322822218,
   1537002063, 1747873779, 1955562222, 2024104815, 2227730452, 2361852424,
   2428436474, 2756734187, 3204031479, 3329325298]

/-- SHA-256 initial hash state. -/
def shaH0 : List Nat :=
  [1779033703, 3144134277, 1013904242, 2773480762,
   1359893119, 2600822924, 528734635, 1541459225]

/-- Big-endian 4-byte groups to 32-bit words. -/
def bytesToWords : List Nat → List Nat
  | b0 :: b1 :: b2 :: b3 :: rest =>
    (b0 * 16777216 + b1 * 65536 + b2 * 256 + b3) :: bytesToWords rest
  | _ => []

/-- Extend 16 schedule words to 64 (each new word appended at the end). -/
def extendW : Nat → List Nat → List Nat
  | 0, w => w
  | n + 1, w =>
    extendW n (w ++ [(ssig1 (w.getD (w.length - 2) 0) + w.getD (w.length - 7) 0
      + ssig0 (w.getD (w.length - 15) 0) + w.getD (w.length - 16) 0) % M32])

/-- SHA-256 working state. -/
structure Sha8 where
  a : Nat
  b : Nat
  c : Nat
  d : Nat
  e : Nat
  f : Nat
  g : Nat
  h : Nat

/-- One SHA-256 round (`kw` is the round constant paired with the
schedule word). -/
def shaRound (st : Sha8) (kw : Nat × Nat) : Sha8 :=
  let ch := (st.e &&& st.f) ^^^ ((st.e ^^^ 4294967295) &&& st.g)
  let maj := (st.a &&& st.b) ^^^ (st.a &&& st.c) ^^^ (st.b &&& st.c)
  let t1 := (st.h + bsig1 st.e + ch + kw.1 + kw.2) % M32
  let t2 := (bsig0 st.a + maj) % M32
  ⟨(t1 + t2) % M32, st.a, st.b, st.c, (st.d + t1) % M32, st.e, st.f, st.g⟩

/-- Compress one 64-byte block (given as 16 words) into the hash state. -/
def shaCompress (hs : List Nat) (block : List Nat) : List Nat :=
  let w := extendW 48 block
  let st0 : Sha8 := ⟨hs.getD 0 0, hs.getD 1 0, hs.getD 2 0, hs.getD 3 0,
    hs.getD 4 0, hs.getD 5 0, hs.getD 6 0, hs.getD 7 0⟩
  let st := (shaK.zip w).foldl shaRound st0
  [(hs.getD 0 0 + st.a) % M32, (hs.getD 1 0 + st.b) % M32,
   (hs.getD 2 0 + st.c) % M32, (hs.getD 3 0 + st.d) % M32,
   (hs.getD 4 0 + st.e) % M32, (hs.getD 5 0 + st.f) % M32,
   (hs.getD 6 0 + st.g) % M32, (hs.getD 7 0 + st.h) % M32]

/-- SHA-256 padding: `0x80`, zeros, then the bit length as 8 bytes
big-endian, to a multiple of 64 bytes. -/
def shaPad (msg : List Nat) : List Nat :=
  let L := msg.length
  let padLen := (64 - ((L + 9) % 64)) % 64
  let bits := 8 * L
  msg ++ [128] ++ List.replicate padLen 0 ++
    [(bits >>> 56) % 256, (bits >>> 48) % 256, (bits >>> 40) % 256,
     (bits >>> 32) % 256, (bits >>> 24) % 256, (bits >>> 16) % 256,
     (bits >>> 8) % 256, bits % 256]

/-- Process the padded message block by block (the fuel argument keeps
the recursion structural; each step consumes 64 bytes, so fuel equal to
the byte count is always enough). -/
def shaBlocksF : Nat → List Nat → List Nat → List Nat
  | _, hs, [] => hs
  | 0, hs, _ :: _ => hs
  | fuel + 1, hs, c :: cs =>
    shaBlocksF fuel (shaCompress hs (bytesToWords ((c :: cs).take 64))) ((c :: cs).drop 64)

/-- One 32-bit word to 4 big-endian bytes. -/
def wordBytes (w : Nat) : List Nat :=
  [(w >>> 24) % 256, (w >>> 16) % 256, (w >>> 8) % 256, w % 256]

/-- SHA-256 of a byte string, as 32 bytes. -/
def sha256bytes (msg : List Nat) : List Nat :=
  let padded := shaPad msg
  (shaBlocksF padded.length shaH0 padded).foldr (fun w acc => wordBytes w ++ acc) []

/-- Lowercase hex alphabet. -/
def hexChars : List Char := "0123456789abcdef".data

/-- Two lowercase hex characters of one byte. -/
def byteHex (b : Nat) : List Char :=
  [hexChars.getD (b / 16 % 16) '0', hexChars.getD (b % 16) '0']

/-- `hexdigest()`. -/
def hexOfBytes (bs : List Nat) : String :=
  String.mk (bs.foldr (fun b acc => byteHex b ++ acc) [])

/-- HMAC-SHA-256 (`hmac.new(key, msg, hashlib.sha256)`), block size 64. -/
def hmacSha256 (key msg : List Nat) : List Nat :=
  let k1 := if 64 < key.length then sha256bytes key else key
  let k := k1 ++ List.replicate (64 - k1.length) 0
  sha256bytes ((k.map (fun b => b ^^^ 92)) ++
    sha256bytes ((k.map (fun b => b ^^^ 54)) ++ msg))

/-- `compute_signature`. -/
def compute_signature (secret data : List Nat) : String :=
  hexOfBytes (hmacSha256 secret data)

/-- `verify_signature`: empty header fails closed; otherwise the stripped
header is compared (`hmac.compare_digest` is equality with a
constant-time execution profile). -/
def verify_signature (secret : List Nat) (signature_header : String)
    (data : List Nat) : Except HTTPErr Unit :=
  if signature_header = "" then .error ⟨401, "missing signature"⟩
  else if compute_signature secret data = pyStrip signature_header then .ok ()
  else .error ⟨401, "invalid signature"⟩

/-! ## The JSON-body endpoint (`POST /deploy`) -/

/-- Parsed JSON values (`json.loads` results). -/
inductive JVal where
  | obj (fields : List (String × JVal))
  | arr (items : List JVal)
  | str (s : String)
  | num (n : Int)
  | bool (b : Bool)
  | null

/-- Whether a JSON value is an object (a Python `dict`). -/
def JVal.isObj : JVal → Bool
  | .obj _ => true
  | _ => false

/-- `payload.get(key)`: only `dict` has `.get`; any other `json.loads`
result raises `AttributeError` at this call. -/
def pyGet (v : JVal) (k : String) : Except String (Option JVal) :=
  match v with
  | .obj fields => .ok ((fields.find? (fun p => p.1 = k)).map Prod.snd)
  | _ => .error "AttributeError: object has no attribute get"

/-- Python truthiness of a JSON value (`if not stack`). -/
def jTruthy : JVal → Bool
  | .obj f => !f.isEmpty
  | .arr a => !a.isEmpty
  | .str s => !(s = "")
  | .num n => !(n = 0)
  | .bool b => b
  | .null => false

/-- Python `str()` of a JSON value (containers abbreviated; no claim
depends on the container spellings). -/
def pyStrJ : JVal → String
  | .obj _ => "<dict>"
  | .arr _ => "<list>"
  | .str s => s
  | .num n => toString n
  | .bool true => "True"
  | .bool false => "False"
  | .null => "None"

/-- What a request handler produces before FastAPI's exception handlers
run: a deploy response, a raised `HTTPException`, or any other raised
Python exception. -/
inductive HandlerOutcome where
  | response (r : DeployResponse)
  | httpError (e : HTTPErr)
  | pyError (msg : String)

/-- The `POST /deploy` handler body: verify the signature over the raw
body bytes, parse JSON (`payload` is the `json.loads` result of
`body.decode() or "{}"`, `none` when `json.JSONDecodeError` is raised),
fetch and check the `stack` field, then run the pipeline. -/
def deploy_body (secret : List Nat) (fs : FS) (stacks_root : List String)
    (T : DeployTimeouts) (runner : String → CmdOutcome)
    (sigHeader : String) (body : List Nat) (payload : Option JVal) :
    HandlerOutcome × List (String × List String) :=
  match verify_signature secret sigHeader body with
  | .error e => (.httpError e, [])
  | .ok _ =>
    match payload with
    | none => (.httpError ⟨400, "invalid JSON payload"⟩, [])
    | some v =>
      match pyGet v "stack" with
      | .error m => (.pyError m, [])
      | .ok stackOpt =>
        match stackOpt with
        | none => (.httpError ⟨400, "stack is required"⟩, [])
        | some sv =>
          if jTruthy sv = false then (.httpError ⟨400, "stack is required"⟩, [])
          else
            match perform_deploy fs stacks_root T runner (pyStrJ sv) with
            | (.error e, log) => (.httpError e, log)
            | (.ok r, log) => (.response r, log)

/-- FastAPI's outermost boundary: translate a raised exception through
the registered exception handlers (`DeployResponse`s pass through). -/
def app_boundary : HandlerOutcome → Resp ⊕ DeployResponse
  | .response r => .inr r
  | .httpError e => .inl (http_exception_handler e)
  | .pyError m => .inl (unhandled_exception_handler m)

/-! # Theorems

List-scanning facts about the sanitizer, then general facts about the
pipeline, then the claim theorems. -/

theorem dropWhile_length_le (p : Char → Bool) (l : List Char) :
    (l.dropWhile p).length ≤ l.length := by
  induction l with
  | nil => simp [List.dropWhile]
  | cons c cs ih =>
    simp only [List.dropWhile]
    by_cases hc : p c
    · simp [hc]; omega
    · simp [hc]

theorem firstSepIdx_lt_length {l : List Char} {s : Nat}
    (h : firstSepIdx l = some s) : s < l.length := by
  induction l generalizing s with
  | nil => simp [firstSepIdx] at h
  | cons c cs ih =>
    by_cases hc : isSep c
    · simp [firstSepIdx, hc] at h
      simp [← h]
    · simp [firstSepIdx, hc] at h
      obtain ⟨s', hs', rfl⟩ := h
      have := ih hs'
      simp
      omega

theorem matchAt_rest_lt {cs g rest} (h : matchAt cs = some (g, rest)) :
    rest.length < cs.length := by
  unfold matchAt matchCore at h
  set t := cs.dropWhile pyIsSpace with ht
  by_cases hk : hasKeyword (t.takeWhile keyTokChar)
  · simp [hk] at h
    cases hs : firstSepIdx t with
    | none => simp [hs] at h
    | some s =>
      have hslt : s < t.length := firstSepIdx_lt_length hs
      simp [hs] at h
      cases hm : matchTail (t.drop (s + 1)) with
      | none => simp [hm] at h
      | some k =>
        simp [hm] at h
        have hlen : t.length ≤ cs.length := by
          rw [ht]; exact dropWhile_length_le _ _
        have : rest = t.drop (s + 1 + k) := h.2.symm
        subst this
        rw [List.length_drop]
        omega
  · simp [hk] at h

theorem scanGoF_fuel {f1 f2 : Nat} {cs : List Char} {b : Bool}
    (h1 : cs.length ≤ f1) (h2 : cs.length ≤ f2) :
    scanGoF f1 cs b = scanGoF f2 cs b := by
  induction f1 generalizing f2 cs b with
  | zero =>
    have : cs = [] := by
      cases cs with
      | nil => rfl
      | cons c cs' => simp at h1
    subst this
    cases f2 <;> simp [scanGoF]
  | succ f1' ih =>
    cases cs with
    | nil => cases f2 <;> simp [scanGoF]
    | cons c rest =>
      cases f2 with
      | zero => simp at h2
      | succ f2' =>
        simp only [scanGoF]
        by_cases hb : b
        · subst hb
          simp only [if_pos rfl]
          cases hm : matchAt (c :: rest) with
          | none =>
            have hr : rest.length ≤ f1' := by simp at h1; omega
            have hr2 : rest.length ≤ f2' := by simp at h2; omega
            rw [ih hr hr2]
          | some p =>
            obtain ⟨g, after⟩ := p
            have hlt := matchAt_rest_lt hm
            have ha : after.length ≤ f1' := by simp at h1 hlt; omega
            have ha2 : after.length ≤ f2' := by simp at h2 hlt; omega
            simp [ih ha ha2]
        · simp only [if_neg hb]
          have hr : rest.length ≤ f1' := by simp at h1; omega
          have hr2 : rest.length ≤ f2' := by simp at h2; omega
          rw [ih hr hr2]

theorem dropWhile_append_of_exists {p : Char → Bool} {l : List Char} (r : List Char)
    (h : ∃ c ∈ l, p c = false) :
    (l ++ r).dropWhile p = l.dropWhile p ++ r := by
  induction l with
  | nil => simp at h
  | cons c cs ih =>
    by_cases hc : p c
    · have h' : ∃ d ∈ cs, p d = false := by
        obtain ⟨d, hd, hdf⟩ := h
        rcases List.mem_cons.mp hd with rfl | hmem
        · exact absurd hc (by simp [hdf])
        · exact ⟨d, hmem, hdf⟩
      simp [List.dropWhile, hc, ih h']
    · simp [List.dropWhile, hc]

theorem dropWhile_append_of_all {p : Char → Bool} {l : List Char} (r : List Char)
    (h : ∀ c ∈ l, p c = true) :
    (l ++ r).dropWhile p = r.dropWhile p := by
  induction l with
  | nil => simp
  | cons c cs ih =>
    have hc : p c = true := h c (by simp)
    simp [List.dropWhile, hc, ih (fun d hd => h d (by simp [hd]))]

theorem dropWhile_eq_self_of_all {p : Char → Bool} {l : List Char}
    (h : ∀ c ∈ l, p c = false) : l.dropWhile p = l := by
  cases l with
  | nil => simp
  | cons c cs => simp [List.dropWhile, h c (by simp)]

theorem takeWhile_eq_self_of_all {p : Char → Bool} {l : List Char}
    (h : ∀ c ∈ l, p c = true) : l.takeWhile p = l := by
  induction l with
  | nil => simp
  | cons c cs ih =>
    simp [List.takeWhile, h c (by simp), ih (fun d hd => h d (by simp [hd]))]

theorem takeWhile_append_stop {p : Char → Bool} {l : List Char} {b : Char} (r : List Char)
    (hb : p b = false) :
    (l ++ b :: r).takeWhile p = l.takeWhile p := by
  induction l with
  | nil => simp [List.takeWhile, hb]
  | cons c cs ih =>
    by_cases hc : p c
    · simp [List.takeWhile, hc, ih]
    · simp [List.takeWhile, hc]

theorem takeWhile_append_of_exists {p : Char → Bool} {l : List Char} (r : List Char)
    (h : ∃ c ∈ l, p c = false) :
    (l ++ r).takeWhile p = l.takeWhile p := by
  induction l with
  | nil => simp at h
  | cons c cs ih =>
    by_cases hc : p c
    · have h' : ∃ d ∈ cs, p d = false := by
        obtain ⟨d, hd, hdf⟩ := h
        rcases List.mem_cons.mp hd with rfl | hmem
        · exact absurd hc (by simp [hdf])
        · exact ⟨d, hmem, hdf⟩
      simp [List.takeWhile, hc, ih h']
    · simp [List.takeWhile, hc]

theorem firstSepIdx_append {l : List Char} {b : Char} (r : List Char)
    (hl : ∀ c ∈ l, isSep c = false) (hb : isSep b = true) :
    firstSepIdx (l ++ b :: r) = some l.length := by
  induction l with
  | nil => simp [firstSepIdx, hb]
  | cons c cs ih =>
    have hc : isSep c = false := hl c (by simp)
    simp [firstSepIdx, hc, ih (fun d hd => hl d (by simp [hd]))]

theorem mem_of_mem_dropWhile {α : Type} {p : α → Bool} {l : List α} {c : α}
    (h : c ∈ l.dropWhile p) : c ∈ l := by
  induction l with
  | nil => simp [List.dropWhile] at h
  | cons d ds ih =>
    by_cases hd : p d
    · simp [List.dropWhile, hd] at h
      exact List.mem_cons_of_mem _ (ih h)
    · simpa [List.dropWhile, hd] using h

theorem dropWhile_ne_nil_of_exists {p : Char → Bool} {l : List Char}
    (h : ∃ c ∈ l, p c = false) : l.dropWhile p ≠ [] := by
  induction l with
  | nil => simp at h
  | cons c cs ih =>
    by_cases hc : p c
    · have h' : ∃ d ∈ cs, p d = false := by
        obtain ⟨d, hd, hdf⟩ := h
        rcases List.mem_cons.mp hd with rfl | hmem
        · exact absurd hc (by simp [hdf])
        · exact ⟨d, hmem, hdf⟩
      simpa [List.dropWhile, hc] using ih h'
    · simp [List.dropWhile, hc]

theorem keyTok_not_space {c : Char} (h : keyTokChar c = true) :
    pyIsSpace c = false := by
  unfold keyTokChar at h
  cases hp : pyIsSpace c <;> simp [hp] at h ⊢

theorem keyTok_not_sep {c : Char} (h : keyTokChar c = true) :
    isSep c = false := by
  unfold keyTokChar at h
  unfold isSep
  cases h1 : decide (c = ':') <;> cases h2 : decide (c = '=') <;>
    simp_all

theorem sep_not_keyTok {c : Char} (h : isSep c = true) :
    keyTokChar c = false := by
  unfold isSep at h
  unfold keyTokChar
  rcases Bool.or_eq_true_iff.mp h with h' | h' <;> simp_all

theorem matchCore_none_of_no_keyword {t : List Char}
    (h : hasKeyword (t.takeWhile keyTokChar) = false) : matchCore t = none := by
  simp [matchCore, h]

theorem matchAt_benign {l : List Char} (v : List Char) (hb : BenignLine l) :
    matchAt (l ++ '\n' :: v) = none := by
  obtain ⟨hnw, hkw, _⟩ := hb
  unfold matchAt
  rw [dropWhile_append_of_exists _ hnw]
  apply matchCore_none_of_no_keyword
  rw [takeWhile_append_stop _ (show keyTokChar '\n' = false by decide)]
  exact hkw

theorem matchAt_benign_end {l : List Char} (hb : BenignLine l) :
    matchAt l = none := by
  obtain ⟨_, hkw, _⟩ := hb
  unfold matchAt
  exact matchCore_none_of_no_keyword hkw

theorem matchAt_sensitive {ws0 key : List Char} {sep : Char} {rest : List Char}
    (suffix : List Char) (hs : SensShape ws0 key sep rest)
    (hsuf : suffix = [] ∨ ∃ v, suffix = '\n' :: v) :
    matchAt (ws0 ++ key ++ sep :: (rest ++ suffix)) = some (key, suffix) := by
  obtain ⟨hws0, hknil, hkchars, hkw, hsep, hrex, hrnn⟩ := hs
  obtain ⟨k, ks, rfl⟩ : ∃ k ks, key = k :: ks := by
    cases key with
    | nil => exact absurd rfl hknil
    | cons k ks => exact ⟨k, ks, rfl⟩
  set key := k :: ks with hkey
  -- leading whitespace is consumed; the key head stops the dropWhile
  have hdrop : (ws0 ++ key ++ sep :: (rest ++ suffix)).dropWhile pyIsSpace
      = key ++ sep :: (rest ++ suffix) := by
    rw [List.append_assoc _ key, dropWhile_append_of_all _ (fun c hc => (hws0 c hc).1)]
    have : pyIsSpace k = false := keyTok_not_space (hkchars k (by simp [hkey]))
    simp [hkey, List.dropWhile, this]
  unfold matchAt
  rw [hdrop]
  -- the [^\s:=]-run is exactly the key
  have htake : (key ++ sep :: (rest ++ suffix)).takeWhile keyTokChar = key := by
    rw [takeWhile_append_stop _ (sep_not_keyTok hsep)]
    exact takeWhile_eq_self_of_all hkchars
  -- the separator is found right after the key
  have hfs : firstSepIdx (key ++ sep :: (rest ++ suffix)) = some key.length :=
    firstSepIdx_append _ (fun c hc => keyTok_not_sep (hkchars c hc)) hsep
  -- text after the separator
  have hdrop1 : (key ++ sep :: (rest ++ suffix)).drop (key.length + 1)
      = rest ++ suffix := by
    have h1 : key ++ sep :: (rest ++ suffix) = (key ++ [sep]) ++ (rest ++ suffix) := by
      simp
    have h2 : (key ++ [sep]).length = key.length + 1 := by simp
    rw [h1, ← h2, List.drop_left]
  -- \s* then the value: k = rest.length
  have hmt : matchTail (rest ++ suffix) = some rest.length := by
    simp only [matchTail]
    rw [takeWhile_append_of_exists _ hrex]
    have hsplit : rest ++ suffix
        = rest.takeWhile pyIsSpace ++ (rest.dropWhile pyIsSpace ++ suffix) := by
      rw [← List.append_assoc, List.takeWhile_append_dropWhile]
    have hdrop2 : (rest ++ suffix).drop (rest.takeWhile pyIsSpace).length
        = rest.dropWhile pyIsSpace ++ suffix := by
      rw [hsplit, List.drop_left]
    rw [hdrop2]
    obtain ⟨d, ds, hds⟩ : ∃ d ds, rest.dropWhile pyIsSpace = d :: ds := by
      cases hcase : rest.dropWhile pyIsSpace with
      | nil => exact absurd hcase (dropWhile_ne_nil_of_exists hrex)
      | cons d ds => exact ⟨d, ds, rfl⟩
    have hall : ∀ c ∈ rest.dropWhile pyIsSpace, notNL c = true :=
      fun c hc => hrnn c (mem_of_mem_dropWhile hc)
    have htv : (rest.dropWhile pyIsSpace ++ suffix).takeWhile notNL
        = rest.dropWhile pyIsSpace := by
      rcases hsuf with rfl | ⟨v, rfl⟩
      · rw [List.append_nil]
        exact takeWhile_eq_self_of_all hall
      · rw [takeWhile_append_stop _ (show notNL '\n' = false by decide)]
        exact takeWhile_eq_self_of_all hall
    rw [hds] at htv ⊢
    simp only [List.cons_append]
    rw [show ((d :: (ds ++ suffix)).takeWhile notNL) = d :: ds by
      simpa using htv]
    have hlensum : (rest.takeWhile pyIsSpace).length + (d :: ds).length
        = rest.length := by
      rw [← hds, ← List.length_append, List.takeWhile_append_dropWhile]
    simp [← hlensum]
  -- group 1 is the key (no trailing whitespace to strip)
  have hg1 : dropTrailingWs ((key ++ sep :: (rest ++ suffix)).take key.length) = key := by
    rw [List.take_left]
    unfold dropTrailingWs
    rw [dropWhile_eq_self_of_all
      (fun c hc => keyTok_not_space (hkchars c (List.mem_reverse.mp hc)))]
    exact List.reverse_reverse key
  -- the whole match consumes through the end of the value
  have hend : (key ++ sep :: (rest ++ suffix)).drop (key.length + 1 + rest.length)
      = suffix := by
    have h1 : key ++ sep :: (rest ++ suffix) = ((key ++ [sep]) ++ rest) ++ suffix := by
      simp
    have h2 : ((key ++ [sep]) ++ rest).length = key.length + 1 + rest.length := by
      simp
      omega
    rw [h1, ← h2, List.drop_left]
  simp only [matchCore, htake, hkw, if_pos, hfs, hdrop1, hmt, hg1, hend]

theorem scan_copy_end {u : List Char} (hu : ∀ c ∈ u, c ≠ '\n') :
    ∀ fuel, u.length ≤ fuel → scanGoF fuel u false = u := by
  induction u with
  | nil => intro fuel _; cases fuel <;> simp [scanGoF]
  | cons c cs ih =>
    intro fuel hf
    cases fuel with
    | zero => simp at hf
    | succ f =>
      have hc : c ≠ '\n' := hu c (by simp)
      have : cs.length ≤ f := by simp at hf; omega
      simp [scanGoF, hc, ih (fun d hd => hu d (by simp [hd])) f this]

theorem scan_copy {u : List Char} (v : List Char) (hu : ∀ c ∈ u, c ≠ '\n') :
    ∀ fuel, (u ++ '\n' :: v).length ≤ fuel →
    scanGoF fuel (u ++ '\n' :: v) false = u ++ '\n' :: scanGoF v.length v true := by
  induction u with
  | nil =>
    intro fuel hf
    cases fuel with
    | zero => simp at hf
    | succ f =>
      have hv : v.length ≤ f := by simp at hf; omega
      simp [scanGoF, scanGoF_fuel hv (le_refl v.length)]
  | cons c cs ih =>
    intro fuel hf
    cases fuel with
    | zero => simp at hf
    | succ f =>
      have hc : c ≠ '\n' := hu c (by simp)
      have hlen : (cs ++ '\n' :: v).length ≤ f := by simp at hf ⊢; omega
      simp [scanGoF, hc, ih (fun d hd => hu d (by simp [hd])) f hlen]

theorem scan_benign {l : List Char} (v : List Char) (hb : BenignLine l) :
    ∀ fuel, (l ++ '\n' :: v).length ≤ fuel →
    scanGoF fuel (l ++ '\n' :: v) true = l ++ '\n' :: scanGoF v.length v true := by
  obtain ⟨c, cs, rfl⟩ : ∃ c cs, l = c :: cs := by
    cases l with
    | nil => obtain ⟨d, hd, _⟩ := hb.1; simp at hd
    | cons c cs => exact ⟨c, cs, rfl⟩
  intro fuel hf
  cases fuel with
  | zero => simp at hf
  | succ f =>
    have hm : matchAt ((c :: cs) ++ '\n' :: v) = none := matchAt_benign v hb
    have hc : c ≠ '\n' := hb.2.2 c (by simp)
    have hlen : (cs ++ '\n' :: v).length ≤ f := by simp at hf ⊢; omega
    have hcopy := scan_copy v (fun d hd => hb.2.2 d (by simp [hd])) f hlen
    simp only [List.cons_append] at hm ⊢
    simp [scanGoF, hm, hc, hcopy]

theorem scan_benign_end {l : List Char} (hb : BenignLine l) :
    ∀ fuel, l.length ≤ fuel → scanGoF fuel l true = l := by
  obtain ⟨c, cs, rfl⟩ : ∃ c cs, l = c :: cs := by
    cases l with
    | nil => obtain ⟨d, hd, _⟩ := hb.1; simp at hd
    | cons c cs => exact ⟨c, cs, rfl⟩
  intro fuel hf
  cases fuel with
  | zero => simp at hf
  | succ f =>
    have hm : matchAt (c :: cs) = none := matchAt_benign_end hb
    have hc : c ≠ '\n' := hb.2.2 c (by simp)
    have hlen : cs.length ≤ f := by simp at hf; omega
    simp [scanGoF, hm, hc, scan_copy_end (fun d hd => hb.2.2 d (by simp [hd])) f hlen]

theorem scan_sensitive {ws0 key : List Char} {sep : Char} {rest : List Char}
    (v : List Char) (hs : SensShape ws0 key sep rest) :
    ∀ fuel, ((ws0 ++ key ++ sep :: rest) ++ '\n' :: v).length ≤ fuel →
    scanGoF fuel ((ws0 ++ key ++ sep :: rest) ++ '\n' :: v) true
      = (key ++ ": ***".data) ++ '\n' :: scanGoF v.length v true := by
  intro fuel hf
  have htext : (ws0 ++ key ++ sep :: rest) ++ '\n' :: v
      = ws0 ++ key ++ sep :: (rest ++ '\n' :: v) := by simp
  have hm : matchAt ((ws0 ++ key ++ sep :: rest) ++ '\n' :: v)
      = some (key, '\n' :: v) := by
    rw [htext]
    exact matchAt_sensitive ('\n' :: v) hs (.inr ⟨v, rfl⟩)
  obtain ⟨c, cs, hcons⟩ : ∃ c cs, (ws0 ++ key ++ sep :: rest) ++ '\n' :: v = c :: cs := by
    cases hcase : (ws0 ++ key ++ sep :: rest) ++ '\n' :: v with
    | nil => simp at hcase
    | cons c cs => exact ⟨c, cs, rfl⟩
  rw [hcons] at hm hf ⊢
  cases fuel with
  | zero => simp at hf
  | succ f =>
    have hvlen : ('\n' :: v).length ≤ f := by
      have h1 := matchAt_rest_lt hm
      simp at hf h1 ⊢
      omega
    have hv : v.length ≤ f - 1 := by simp at hvlen; omega
    have hcopy : scanGoF f ('\n' :: v) false = '\n' :: scanGoF v.length v true := by
      cases f with
      | zero => simp at hvlen
      | succ f' =>
        have : v.length ≤ f' := by simp at hvlen; omega
        simp [scanGoF, scanGoF_fuel this (le_refl v.length)]
    simp [scanGoF, hm, hcopy]

theorem scan_sensitive_end {ws0 key : List Char} {sep : Char} {rest : List Char}
    (hs : SensShape ws0 key sep rest) :
    ∀ fuel, (ws0 ++ key ++ sep :: rest).length ≤ fuel →
    scanGoF fuel (ws0 ++ key ++ sep :: rest) true = key ++ ": ***".data := by
  intro fuel hf
  have htext : ws0 ++ key ++ sep :: rest = ws0 ++ key ++ sep :: (rest ++ []) := by simp
  have hm : matchAt (ws0 ++ key ++ sep :: rest) = some (key, []) := by
    rw [htext]
    exact matchAt_sensitive [] hs (.inl rfl)
  obtain ⟨c, cs, hcons⟩ : ∃ c cs, ws0 ++ key ++ sep :: rest = c :: cs := by
    cases hcase : ws0 ++ key ++ sep :: rest with
    | nil => simp at hcase
    | cons c cs => exact ⟨c, cs, rfl⟩
  rw [hcons] at hm hf ⊢
  cases fuel with
  | zero => simp at hf
  | succ f =>
    have hnil : scanGoF f [] false = [] := by cases f <;> simp [scanGoF]
    simp [scanGoF, hm, hnil]

/-- On outputs all of whose lines are benign or standard sensitive, the
sanitizer acts line by line. -/
theorem subSensitive_joinNL {lines : List (List Char)}
    (h : ∀ l ∈ lines, LineOK l) :
    subSensitive (joinNL lines) = joinNL (lines.map subSensitive) := by
  induction lines with
  | nil => rfl
  | cons l ls ih =>
    cases ls with
    | nil => simp [joinNL]
    | cons l' ls' =>
      have hl : LineOK l := h l (by simp)
      have hrest : ∀ m ∈ l' :: ls', LineOK m := fun m hm => h m (by simp [hm])
      have hJ : joinNL (l :: l' :: ls') = l ++ '\n' :: joinNL (l' :: ls') := rfl
      have hM : joinNL ((l :: l' :: ls').map subSensitive)
          = subSensitive l ++ '\n' :: joinNL ((l' :: ls').map subSensitive) := rfl
      rw [hJ, hM, ← ih hrest]
      rcases hl with hb | hsens
      · have h1 : subSensitive l = l := scan_benign_end hb l.length (le_refl _)
        rw [h1]
        unfold subSensitive
        exact scan_benign (joinNL (l' :: ls')) hb _ (le_refl _)
      · obtain ⟨ws0, key, sep, rest, hshape, rfl⟩ := hsens
        have h1 : subSensitive (ws0 ++ key ++ sep :: rest) = key ++ ": ***".data :=
          scan_sensitive_end hshape _ (le_refl _)
        rw [h1]
        unfold subSensitive
        rw [scan_sensitive (joinNL (l' :: ls')) hshape _ (le_refl _)]

/-- Claim C2, counterexample: the output `"PASSWORD:\nDB_PASSWORD: x"`
contains the line `DB_PASSWORD: x`, whose key `DB_PASSWORD` (a token
containing `password`) is followed by `:` and a value; the claim then
requires the key to be preserved in the sanitized tail, but the whole
line is swallowed as the value of the match that starts on the previous
line (`PASSWORD:` with no value on its own line), so `DB_PASSWORD` does
not occur in the sanitizer's output at all. -/
theorem c2_counterexample :
    "PASSWORD:\nDB_PASSWORD: x".data
      = "PASSWORD:".data ++ '\n' :: ("DB_PASSWORD".data ++ ':' :: " x".data) ∧
    hasKeyword "DB_PASSWORD".data = true ∧
    sanitize_output "PASSWORD:\nDB_PASSWORD: x" = "PASSWORD: ***" ∧
    infixOfS "DB_PASSWORD" (sanitize_output "PASSWORD:\nDB_PASSWORD: x") = false := by
  refine ⟨by decide, by decide, by decide, by decide⟩

/-- Claim C2 (amended): redaction is applied before truncation
(`run_command_env` truncates the sanitized combination of stdout and
stderr to its last `TAIL_LIMIT = 2000` characters), and on every output
whose lines are all benign or of the standard sensitive shape the
sanitizer acts line by line, replacing each sensitive line
`ws ++ key ++ (':'|'=') ++ value` by `key ++ ": ***"` and leaving benign
lines unchanged; in particular `DB_PASSWORD: supersecret123` becomes
`DB_PASSWORD: ***` in the returned tail, which does not contain
`supersecret123`.  (The proviso on the line shapes is forced by the
counterexample: a sensitive key whose separator ends its line swallows
the following line whole.) -/
theorem c2_redaction_amended :
    (∀ nm t ec out err dur,
      (run_command_env nm t (.completed ec out err dur)).tail
        = takeLastStr TAIL_LIMIT (sanitize_output (out ++ err))) ∧
    (∀ lines : List (List Char), (∀ l ∈ lines, LineOK l) →
      subSensitive (joinNL lines) = joinNL (lines.map subSensitive)) ∧
    (∀ ws0 key sep rest, SensShape ws0 key sep rest →
      subSensitive (ws0 ++ key ++ sep :: rest) = key ++ ": ***".data) ∧
    (∀ l, BenignLine l → subSensitive l = l) ∧
    (run_command_env "status" 60 (.completed 0 "DB_PASSWORD: supersecret123" "" 5)).tail
      = "DB_PASSWORD: ***" ∧
    infixOfS "supersecret123"
      ((run_command_env "status" 60
        (.completed 0 "DB_PASSWORD: supersecret123" "" 5)).tail) = false := by
  refine ⟨fun nm t ec out err dur => rfl,
    fun lines h => subSensitive_joinNL h,
    fun ws0 key sep rest hs => scan_sensitive_end hs _ (le_refl _),
    fun l hb => scan_benign_end hb _ (le_refl _),
    by decide, by decide⟩

/-- Witness for C2 (amended), at concrete lines: a benign line, a standard
sensitive line, and their two-line combination. -/
theorem c2_redaction_amended_witness :
    subSensitive (joinNL ["abc: 1".data, "DB_PASSWORD: x".data])
      = joinNL (["abc: 1".data, "DB_PASSWORD: x".data].map subSensitive) ∧
    subSensitive ([] ++ "DB_PASSWORD".data ++ ':' :: " x".data)
      = "DB_PASSWORD".data ++ ": ***".data ∧
    subSensitive "abc: 1".data = "abc: 1".data := by
  have h := c2_redaction_amended
  refine ⟨h.2.1 _ ?_, h.2.2.1 [] "DB_PASSWORD".data ':' " x".data ?_, h.2.2.2.1 _ ?_⟩
  · intro l hl
    rcases List.mem_cons.mp hl with rfl | hl'
    · exact .inl (by unfold BenignLine; decide)
    · rcases List.mem_cons.mp hl' with rfl | hl''
      · exact .inr ⟨[], "DB_PASSWORD".data, ':', " x".data,
          by unfold SensShape; decide, by decide⟩
      · simp at hl''
  · unfold SensShape; decide
  · unfold BenignLine; decide

/-- Claim C1: whenever the canonicalized candidate path is neither the
canonicalized stacks root nor a strict descendant of it, the deploy
request fails with a 400 response and no external command is executed
(the invocation log is empty).  Invalid stack names also reject with 400
before resolution, so the conclusion holds for every stack identifier. -/
theorem c1_path_containment :
    ∀ (fs : FS) (stacks_root : List String) (T : DeployTimeouts)
      (runner : String → CmdOutcome) (stack : String) (rootRes : List String),
      fs.resolveStrict stacks_root = some rootRes →
      isParentOf rootRes (fs.resolve (stacks_root ++ [stack])) = false →
      fs.resolve (stacks_root ++ [stack]) ≠ rootRes →
      ∃ e, perform_deploy fs stacks_root T runner stack = (.error e, []) ∧
        e.status = 400 := by
  intro fs stacks_root T runner stack rootRes hroot hpar hne
  unfold perform_deploy validate_stack_name
  by_cases hname : stackNameMatches stack
  · simp only [hname, if_pos]
    unfold get_stack_path
    rw [hroot]
    simp only [hpar, hne, if_pos, and_self, ne_eq, not_false_eq_true]
    exact ⟨⟨400, "invalid stack path"⟩, rfl, rfl⟩
  · simp only [hname]
    exact ⟨⟨400, "invalid stack name"⟩, by simp, rfl⟩

/-- Witness for C1: a filesystem in which the candidate resolves to
`/etc/evil` while the stacks root resolves to `/stacks`. -/
theorem c1_path_containment_witness :
    ∃ e, perform_deploy
        ⟨fun _ => ["etc", "evil"], fun _ => some ["stacks"],
         fun _ => true, fun _ => true⟩
        ["stacks"] {} (fun _ => .timedOut "t" 0) "x" = (.error e, []) ∧
      e.status = 400 :=
  c1_path_containment _ _ _ _ "x" ["stacks"] rfl (by decide) (by decide)

theorem hexChars_getD_mem (n : Nat) : hexChars.getD n '0' ∈ hexChars := by
  by_cases h : n < hexChars.length
  · rw [List.getD_eq_getElem _ _ h]
    exact List.getElem_mem h
  · rw [List.getD_eq_default _ _ (by omega)]
    decide

theorem hexOfBytes_chars {bs : List Nat} {c : Char}
    (h : c ∈ (hexOfBytes bs).data) : c ∈ hexChars := by
  induction bs with
  | nil => simp [hexOfBytes] at h
  | cons b bs ih =>
    simp only [hexOfBytes, byteHex] at h ih
    rcases List.mem_append.mp h with h' | h'
    · rcases List.mem_cons.mp h' with rfl | h''
      · exact hexChars_getD_mem _
      · rcases List.mem_cons.mp h'' with rfl | h'''
        · exact hexChars_getD_mem _
        · simp at h'''
    · exact ih h'

theorem pyStrip_eq_self {s : String}
    (h : ∀ c ∈ s.data, pyIsSpace c = false) : pyStrip s = s := by
  unfold pyStrip pyStripL
  rw [dropWhile_eq_self_of_all h,
    dropWhile_eq_self_of_all (fun c hc => h c (List.mem_reverse.mp hc)),
    List.reverse_reverse]

theorem shaBlocksF_length {f : Nat} {hs rest : List Nat}
    (h : hs.length = 8) : (shaBlocksF f hs rest).length = 8 := by
  induction f generalizing hs rest with
  | zero => cases rest <;> simpa [shaBlocksF]
  | succ f ih =>
    cases rest with
    | nil => simpa [shaBlocksF]
    | cons c cs =>
      simp only [shaBlocksF]
      exact ih (by simp [shaCompress])

theorem foldr_wordBytes_length (ws : List Nat) :
    (ws.foldr (fun w acc => wordBytes w ++ acc) ([] : List Nat)).length
      = 4 * ws.length := by
  induction ws with
  | nil => simp
  | cons w ws ih =>
    have h4 : (wordBytes w).length = 4 := rfl
    simp only [List.foldr_cons, List.length_append, h4, ih, List.length_cons]
    omega

theorem sha256bytes_length (msg : List Nat) : (sha256bytes msg).length = 32 := by
  unfold sha256bytes
  simp only [foldr_wordBytes_length]
  rw [shaBlocksF_length (by decide)]

theorem hexOfBytes_data_length (bs : List Nat) :
    (hexOfBytes bs).data.length = 2 * bs.length := by
  induction bs with
  | nil => rfl
  | cons b bs ih =>
    show (byteHex b ++ (hexOfBytes bs).data).length = 2 * (bs.length + 1)
    rw [List.length_append, ih]
    simp [byteHex]
    omega

theorem hmacSha256_length (key msg : List Nat) :
    (hmacSha256 key msg).length = 32 := by
  simp only [hmacSha256]
  exact sha256bytes_length _

theorem compute_signature_ne_empty (secret data : List Nat) :
    compute_signature secret data ≠ "" := by
  intro h
  have hd : (compute_signature secret data).data.length = 0 := by rw [h]; rfl
  rw [show compute_signature secret data = hexOfBytes (hmacSha256 secret data) from rfl,
    hexOfBytes_data_length, hmacSha256_length] at hd
  simp at hd

theorem compute_signature_strip (secret data : List Nat) :
    pyStrip (compute_signature secret data) = compute_signature secret data := by
  apply pyStrip_eq_self
  intro c hc
  have hmem : c ∈ hexChars := hexOfBytes_chars hc
  have hall : ∀ c ∈ hexChars, pyIsSpace c = false := by decide
  exact hall c hmem

/-- Claim C3, counterexample: a supplied signature that differs from the
hex HMAC of the body only by a trailing space is accepted (the source
strips the header before the constant-time comparison), so the claim
"fails whenever the supplied signature differs from the HMAC of the
body" is false as stated. -/
theorem c3_counterexample :
    compute_signature (strBytes "k") (strBytes "body") ++ " "
      ≠ compute_signature (strBytes "k") (strBytes "body") ∧
    verify_signature (strBytes "k")
      (compute_signature (strBytes "k") (strBytes "body") ++ " ")
      (strBytes "body") = .ok () := by
  constructor
  · decide
  · rfl

/-- Claim C3 (amended): for a fixed shared secret and any body bytes,
verification succeeds on the exact hex HMAC-SHA-256 of the body; it fails
with 401 when the header is empty, and fails with 401 whenever the
supplied signature, after stripping surrounding whitespace, differs from
the hex HMAC of the body; acceptance is exactly "non-empty header whose
stripped value equals the HMAC".  A one-byte change of the body changes
the HMAC (shown on a concrete pair). -/
theorem c3_verify_amended :
    ∀ (secret data : List Nat) (sig : String),
      verify_signature secret (compute_signature secret data) data = .ok () ∧
      verify_signature secret "" data = .error ⟨401, "missing signature"⟩ ∧
      (sig ≠ "" → pyStrip sig ≠ compute_signature secret data →
        verify_signature secret sig data = .error ⟨401, "invalid signature"⟩) ∧
      (verify_signature secret sig data = .ok () ↔
        sig ≠ "" ∧ pyStrip sig = compute_signature secret data) ∧
      compute_signature (strBytes "k") (strBytes "x")
        ≠ compute_signature (strBytes "k") (strBytes "y") := by
  intro secret data sig
  have hne := compute_signature_ne_empty secret data
  have hstrip := compute_signature_strip secret data
  refine ⟨?_, ?_, ?_, ?_, by decide⟩
  · simp [verify_signature, hne, hstrip]
  · simp [verify_signature]
  · intro h1 h2
    have h2' : compute_signature secret data ≠ pyStrip sig := fun h => h2 h.symm
    simp [verify_signature, h1, h2']
  · constructor
    · intro h
      by_cases h1 : sig = ""
      · simp [verify_signature, h1] at h
      · by_cases h2 : compute_signature secret data = pyStrip sig
        · exact ⟨h1, h2.symm⟩
        · simp [verify_signature, h1, h2] at h
    · rintro ⟨h1, h2⟩
      simp [verify_signature, h1, h2.symm]

/-- Witness for C3 (amended): concrete secret `"k"`, body `"x"`, and the
bad signature header `"zz"`. -/
theorem c3_verify_amended_witness :
    verify_signature (strBytes "k")
      (compute_signature (strBytes "k") (strBytes "x")) (strBytes "x") = .ok () ∧
    verify_signature (strBytes "k") "zz" (strBytes "x")
      = .error ⟨401, "invalid signature"⟩ := by
  have h := c3_verify_amended (strBytes "k") (strBytes "x") "zz"
  exact ⟨h.1, h.2.2.1 (by decide) (by decide)⟩

theorem run_command_env_name (nm : String) (t : Nat) (oc : CmdOutcome) :
    (run_command_env nm t oc).name = nm := by
  cases oc <;> rfl

/-- The four terminal shapes of the step pipeline, with the gating
condition of each (`st1` is the status step after the zero-services
adjustment). -/
theorem deploySteps_cases (T : DeployTimeouts) (runner : String → CmdOutcome)
    {st0 cf pl upR st1 : StepResult}
    (hst0 : run_command_env "status" T.status_timeout (runner "status") = st0)
    (hcf : run_command_env "config" T.config_timeout (runner "config") = cf)
    (hpl : run_command_env "pull" T.pull_timeout (runner "pull") = pl)
    (hup : run_command_env "up" T.up_timeout (runner "up") = upR)
    (hst1 : (if st0.ok = true ∧ parseServices st0.tail = [] then
        { st0 with ok := false, tail := st0.tail ++ noServicesMsg } else st0) = st1) :
    (st1.ok = false ∧ deploySteps T runner
      = ([st1], [("status", ["docker", "compose", "ps", "--status=running", "--services"])])) ∨
    (st1.ok = true ∧ cf.ok = false ∧ deploySteps T runner
      = ([st1, cf],
         [("status", ["docker", "compose", "ps", "--status=running", "--services"]),
          ("config", ["docker", "compose", "config"])])) ∨
    (st1.ok = true ∧ cf.ok = true ∧ pl.ok = false ∧ deploySteps T runner
      = ([st1, cf, pl],
         [("status", ["docker", "compose", "ps", "--status=running", "--services"]),
          ("config", ["docker", "compose", "config"]),
          ("pull", ["docker", "compose", "pull"])])) ∨
    (st1.ok = true ∧ cf.ok = true ∧ pl.ok = true ∧ deploySteps T runner
      = ([st1, cf, pl, upR],
         [("status", ["docker", "compose", "ps", "--status=running", "--services"]),
          ("config", ["docker", "compose", "config"]),
          ("pull", ["docker", "compose", "pull"]),
          ("up", ["docker", "compose", "up", "-d", "--remove-orphans"])])) := by
  have key : deploySteps T runner =
      (if st1.ok = false then
        ([st1], [("status", ["docker", "compose", "ps", "--status=running", "--services"])])
      else
        (if (([st1, cf].getLastD st1).ok : Bool) then
          (if ((([st1, cf] ++ [pl]).getLastD st1).ok : Bool) then
            ([st1, cf] ++ [pl] ++ [upR],
             [("status", ["docker", "compose", "ps", "--status=running", "--services"]),
              ("config", ["docker", "compose", "config"]),
              ("pull", ["docker", "compose", "pull"])] ++
              [("up", ["docker", "compose", "up", "-d", "--remove-orphans"])])
          else
            ([st1, cf] ++ [pl],
             [("status", ["docker", "compose", "ps", "--status=running", "--services"]),
              ("config", ["docker", "compose", "config"]),
              ("pull", ["docker", "compose", "pull"])]))
        else
          (if ((([st1, cf]).getLastD st1).ok : Bool) then
            ([st1, cf] ++ [upR],
             [("status", ["docker", "compose", "ps", "--status=running", "--services"]),
              ("config", ["docker", "compose", "config"])] ++
              [("up", ["docker", "compose", "up", "-d", "--remove-orphans"])])
          else
            ([st1, cf],
             [("status", ["docker", "compose", "ps", "--status=running", "--services"]),
              ("config", ["docker", "compose", "config"])])))) := by
    unfold deploySteps
    simp only []
    rw [hst0, hcf, hpl, hup, hst1]
    by_cases h1 : st1.ok = false
    · simp [h1]
    · by_cases h2 : cf.ok = true
      · by_cases h3 : pl.ok = true
        · simp [h1, h2, h3, List.getLastD]
        · simp [h1, h2, h3, List.getLastD]
      · simp [h1, h2, List.getLastD]
  rw [key]
  by_cases h1 : st1.ok = false
  · left
    exact ⟨h1, by rw [if_pos h1]⟩
  · have h1' : st1.ok = true := by
      cases hok : st1.ok
      · exact absurd hok h1
      · rfl
    rw [if_neg h1]
    by_cases h2 : cf.ok = true
    · by_cases h3 : pl.ok = true
      · right; right; right
        refine ⟨h1', h2, h3, ?_⟩
        simp [List.getLastD, h2, h3]
      · right; right; left
        have h3' : pl.ok = false := by
          cases hok : pl.ok
          · rfl
          · exact absurd hok h3
        refine ⟨h1', h2, h3', ?_⟩
        simp [List.getLastD, h2, h3']
    · right; left
      have h2' : cf.ok = false := by
        cases hok : cf.ok
        · rfl
        · exact absurd hok h2
      refine ⟨h1', h2', ?_⟩
      simp [List.getLastD, h2']

theorem statusAdjust_name (st : StepResult) (c : Prop) [Decidable c] (t' : String) :
    (if c then { st with ok := false, tail := t' } else st).name = st.name := by
  split <;> rfl

/-- Claim C4: in every deployment run the steps execute in the fixed
order status, config, pull, up (the step names are a prefix of that
list), the invocation log matches the step list one to one, and every
step other than the last recorded one has `ok = true` (so a step is
never executed after a failed one). -/
theorem c4_step_ordering :
    ∀ (T : DeployTimeouts) (runner : String → CmdOutcome),
      (deploySteps T runner).1.map (fun s => s.name)
        = ["status", "config", "pull", "up"].take (deploySteps T runner).1.length ∧
      (deploySteps T runner).2.map Prod.fst
        = (deploySteps T runner).1.map (fun s => s.name) ∧
      (∀ i, i + 1 < (deploySteps T runner).1.length →
        ((deploySteps T runner).1.getD i ⟨"", false, none, 0, ""⟩).ok = true) := by
  intro T runner
  have hnc := run_command_env_name "config" T.config_timeout (runner "config")
  have hnp := run_command_env_name "pull" T.pull_timeout (runner "pull")
  have hnu := run_command_env_name "up" T.up_timeout (runner "up")
  rcases deploySteps_cases T runner rfl rfl rfl rfl rfl with
    ⟨h1, heq⟩ | ⟨h1, h2, heq⟩ | ⟨h1, h2, h3, heq⟩ | ⟨h1, h2, h3, heq⟩ <;>
    rw [heq] <;>
    refine ⟨by
      simp only [List.map_cons, List.map_nil, statusAdjust_name]
      simp [hnc, hnp, hnu, run_command_env_name], by
      simp only [List.map_cons, List.map_nil, statusAdjust_name]
      simp [hnc, hnp, hnu, run_command_env_name], ?_⟩
  · intro i hi
    simp at hi
  · intro i hi
    simp only [List.length_cons, List.length_nil] at hi
    rcases i with _ | i
    · simpa using h1
    · omega
  · intro i hi
    simp only [List.length_cons, List.length_nil] at hi
    rcases i with _ | _ | i
    · simpa using h1
    · simpa using h2
    · omega
  · intro i hi
    simp only [List.length_cons, List.length_nil] at hi
    rcases i with _ | _ | _ | i
    · simpa using h1
    · simpa using h2
    · simpa using h3
    · omega

/-- Witness for C4: a run in which every command succeeds with one
running service. -/
theorem c4_step_ordering_witness :
    (deploySteps {} (fun _ => .completed 0 "svc" "" 1)).1.map (fun s => s.name)
      = ["status", "config", "pull", "up"].take
          (deploySteps {} (fun _ => .completed 0 "svc" "" 1)).1.length ∧
    ((deploySteps {} (fun _ => .completed 0 "svc" "" 1)).1.getD 0
        ⟨"", false, none, 0, ""⟩).ok = true := by
  have h := c4_step_ordering {} (fun _ => .completed 0 "svc" "" 1)
  exact ⟨h.1, h.2.2 0 (by decide)⟩

/-- Claim C5: when the status command succeeds but lists zero running
services, the status StepResult is forcibly marked failed with the
explanatory message appended to its tail, and the deployment response
has `ok = false`, HTTP status 500, and a steps list holding exactly the
single status entry. -/
theorem c5_zero_services :
    ∀ (T : DeployTimeouts) (runner : String → CmdOutcome) (stack : String),
      (run_command_env "status" T.status_timeout (runner "status")).ok = true →
      parseServices (run_command_env "status" T.status_timeout (runner "status")).tail
        = [] →
      deploySteps T runner
        = ([{ run_command_env "status" T.status_timeout (runner "status") with
              ok := false,
              tail := (run_command_env "status" T.status_timeout (runner "status")).tail
                ++ noServicesMsg }],
           [("status", ["docker", "compose", "ps", "--status=running", "--services"])]) ∧
      (build_response stack (deploySteps T runner).1).ok = false ∧
      (build_response stack (deploySteps T runner).1).status_code = 500 ∧
      (deploySteps T runner).1.map (fun s => s.name) = ["status"] := by
  intro T runner stack hok hsv
  have hif : (if (run_command_env "status" T.status_timeout (runner "status")).ok = true
      ∧ parseServices (run_command_env "status" T.status_timeout (runner "status")).tail = []
      then { run_command_env "status" T.status_timeout (runner "status") with
             ok := false,
             tail := (run_command_env "status" T.status_timeout (runner "status")).tail
               ++ noServicesMsg }
      else run_command_env "status" T.status_timeout (runner "status"))
      = { run_command_env "status" T.status_timeout (runner "status") with
          ok := false,
          tail := (run_command_env "status" T.status_timeout (runner "status")).tail
            ++ noServicesMsg } := if_pos ⟨hok, hsv⟩
  rcases deploySteps_cases T runner rfl rfl rfl rfl rfl with
    ⟨h1, heq⟩ | ⟨h1, _, _⟩ | ⟨h1, _, _, _⟩ | ⟨h1, _, _, _⟩
  · rw [hif] at heq
    refine ⟨heq, ?_, ?_, ?_⟩
    · rw [heq]
      simp [build_response]
    · rw [heq]
      simp [build_response]
    · rw [heq]
      simp [run_command_env_name]
  all_goals (rw [hif] at h1; simp at h1)

/-- Witness for C5: a status command that exits 0 printing only blank
output, so no services are listed. -/
theorem c5_zero_services_witness :
    (build_response "web"
      (deploySteps {} (fun _ => .completed 0 "" "" 1)).1).ok = false ∧
    (deploySteps {} (fun _ => .completed 0 "" "" 1)).1.map (fun s => s.name)
      = ["status"] := by
  have h := c5_zero_services {} (fun _ => .completed 0 "" "" 1) "web"
    (by decide) (by decide)
  exact ⟨h.2.1, h.2.2.2⟩

/-- Claim C7: a timed-out command yields a StepResult with `ok = false`,
no exit code, the reported duration, and a tail containing "timeout"
(the runner returns normally instead of propagating the exception); and
when the config step times out after a healthy status step, the pipeline
stops there: the step list is exactly status then the failed config
entry. -/
theorem c7_timeout :
    (∀ nm t msg dur, run_command_env nm t (.timedOut msg dur)
      = { name := nm, ok := false, exit_code := none, duration_ms := dur,
          tail := "timeout after " ++ toString t ++ "s: " ++ msg }) ∧
    (∀ nm t msg dur,
      infixOfS "timeout" (run_command_env nm t (.timedOut msg dur)).tail = true) ∧
    (∀ (T : DeployTimeouts) (runner : String → CmdOutcome) msg dur,
      (run_command_env "status" T.status_timeout (runner "status")).ok = true →
      parseServices (run_command_env "status" T.status_timeout (runner "status")).tail
        ≠ [] →
      runner "config" = .timedOut msg dur →
      (deploySteps T runner).1
        = [run_command_env "status" T.status_timeout (runner "status"),
           run_command_env "config" T.config_timeout (.timedOut msg dur)] ∧
      ((deploySteps T runner).1.getLastD ⟨"", false, none, 0, ""⟩).ok = false ∧
      ((deploySteps T runner).1.getLastD ⟨"", false, none, 0, ""⟩).exit_code = none) := by
  refine ⟨fun nm t msg dur => rfl, ?_, ?_⟩
  · intro nm t msg dur
    have hd : "timeout after ".data
        = ['t', 'i', 'm', 'e', 'o', 'u', 't', ' ', 'a', 'f', 't', 'e', 'r', ' '] := rfl
    have hpat : "timeout".data = ['t', 'i', 'm', 'e', 'o', 'u', 't'] := rfl
    show infixOfL "timeout".data
      (("timeout after " ++ toString t ++ "s: " ++ msg).data) = true
    rw [hpat]
    rw [show ("timeout after " ++ toString t ++ "s: " ++ msg).data
        = "timeout after ".data ++ ((toString t).data ++ ("s: ".data ++ msg.data)) by
      simp [String.data_append]]
    rw [hd]
    simp only [List.cons_append, List.nil_append, infixOfL, lcExactPrefEq]
    simp
  · intro T runner msg dur hok hsv hrc
    have hif : (if (run_command_env "status" T.status_timeout (runner "status")).ok = true
        ∧ parseServices (run_command_env "status" T.status_timeout (runner "status")).tail = []
        then { run_command_env "status" T.status_timeout (runner "status") with
               ok := false,
               tail := (run_command_env "status" T.status_timeout (runner "status")).tail
                 ++ noServicesMsg }
        else run_command_env "status" T.status_timeout (runner "status"))
        = run_command_env "status" T.status_timeout (runner "status") := by
      apply if_neg
      intro hand
      exact hsv hand.2
    have hcfok : (run_command_env "config" T.config_timeout (runner "config")).ok
        = false := by
      rw [hrc]
      rfl
    rcases deploySteps_cases T runner rfl rfl rfl rfl rfl with
      ⟨h1, _⟩ | ⟨h1, h2, heq⟩ | ⟨h1, h2, _, _⟩ | ⟨h1, h2, _, _⟩
    · rw [hif] at h1
      exact absurd h1 (by simp [hok])
    · rw [hif] at heq
      rw [hrc] at heq
      refine ⟨by rw [heq], ?_, ?_⟩
      · rw [heq]
        simp [List.getLastD, run_command_env]
      · rw [heq]
        simp [List.getLastD, run_command_env]
    · rw [hcfok] at h2
      simp at h2
    · rw [hcfok] at h2
      simp at h2

/-- Witness for C7: a healthy status step followed by a config timeout. -/
theorem c7_timeout_witness :
    (deploySteps {}
      (fun nm => if nm = "status" then .completed 0 "svc" "" 1
                 else .timedOut "cmd" 7)).1
      = [run_command_env "status" 60 (.completed 0 "svc" "" 1),
         run_command_env "config" 120 (.timedOut "cmd" 7)] ∧
    infixOfS "timeout" (run_command_env "config" 120 (.timedOut "cmd" 7)).tail
      = true := by
  have h := c7_timeout
  have h3 := h.2.2 {} (fun nm => if nm = "status" then .completed 0 "svc" "" 1
    else .timedOut "cmd" 7) "cmd" 7 (by decide) (by decide) rfl
  exact ⟨h3.1, h.2.1 "config" 120 "cmd" 7⟩

theorem dropWhile_lt_eq_filter {l : List Int} {c : Int}
    (h : l.Pairwise (· ≤ ·)) :
    l.dropWhile (fun t => decide (t < c)) = l.filter (fun t => !decide (t < c)) := by
  induction l with
  | nil => rfl
  | cons t ts ih =>
    rw [List.pairwise_cons] at h
    obtain ⟨hle, hp⟩ := h
    by_cases ht : t < c
    · simp [List.dropWhile, List.filter, ht, ih hp]
    · have hall : ∀ x ∈ ts, ¬x < c :=
        fun x hx hxc => ht (lt_of_le_of_lt (hle x hx) hxc)
      simp [List.dropWhile, List.filter, ht]
      symm
      rw [List.filter_eq_self]
      intro a ha
      simp [hall a ha]

/-- Claim C6: with quota `q` and the 60-second sliding window, a request
is admitted exactly when fewer than `q` recorded timestamps lie within
the trailing window (older ones are evicted from the front first, which
on a time-ordered bucket is exactly the in-window filter); an admitted
request appends its timestamp, a rejected one yields the 429 response;
and with `q = 3`, requests at times 0, 1, 2 are admitted, a fourth at
time 3 is rejected, and one at time 100 (window passed) is admitted. -/
theorem c6_rate_limiter :
    (∀ (q : Nat) (bucket : List Int) (now : Int), bucket.Pairwise (· ≤ ·) →
      (((rate_limit_allow q bucket now).1 = true ↔
        (bucket.filter
          (fun t => !decide (t < now - RATE_LIMIT_WINDOW_SECONDS))).length < q) ∧
       ((rate_limit_allow q bucket now).1 = true →
        (rate_limit_allow q bucket now).2 = rate_limit_evict bucket now ++ [now]))) ∧
    (∀ (q : Nat) (bucket : List Int) (now : Int) (next : Resp),
      (rate_limit_allow q bucket now).1 = false →
      (rate_limiter q bucket now next).1 = rate_limited_response ∧
      rate_limited_response.status_code = 429) ∧
    (rate_limit_run 3 [0, 1, 2, 3, 100]).1 = [true, true, true, false, true] := by
  refine ⟨?_, ?_, by decide⟩
  · intro q bucket now hsort
    have hE : rate_limit_evict bucket now
        = bucket.filter (fun t => !decide (t < now - RATE_LIMIT_WINDOW_SECONDS)) :=
      dropWhile_lt_eq_filter hsort
    constructor
    · simp only [rate_limit_allow]
      by_cases hq : q ≤ (rate_limit_evict bucket now).length
      · rw [if_pos hq]
        constructor
        · intro h
          simp at h
        · intro h
          rw [← hE] at h
          omega
      · rw [if_neg hq]
        constructor
        · intro _
          rw [← hE]
          omega
        · intro _
          rfl
    · intro h
      simp only [rate_limit_allow] at h ⊢
      by_cases hq : q ≤ (rate_limit_evict bucket now).length
      · rw [if_pos hq] at h
        simp at h
      · rw [if_neg hq]
  · intro q bucket now next h
    refine ⟨?_, rfl⟩
    simp only [rate_limiter]
    rw [h]
    simp

/-- Witness for C6: the sorted two-element bucket `[0, 1]` with quota 1
at time 2 is rejected; quota 3 at time 2 is admitted and appends. -/
theorem c6_rate_limiter_witness :
    ((rate_limit_allow 3 [0, 1] 2).1 = true ↔
      (([0, 1] : List Int).filter
        (fun t => !decide (t < 2 - RATE_LIMIT_WINDOW_SECONDS))).length < 3) ∧
    (rate_limiter 1 [0, 1] 2 rate_limited_response).1 = rate_limited_response := by
  have h := c6_rate_limiter
  refine ⟨(h.1 3 [0, 1] 2 (by decide)).1, (h.2.1 1 [0, 1] 2 _ (by decide)).1⟩

/-- Claim C10: a rejected request records nothing: on rejection the new
bucket is exactly the eviction of the old one (every timestamp it holds
was already present), and in particular `now` is only ever appended on
admission. -/
theorem c10_reject_no_record :
    ∀ (q : Nat) (bucket : List Int) (now : Int) (next : Resp),
      (rate_limit_allow q bucket now).1 = false →
      (rate_limiter q bucket now next).2 = rate_limit_evict bucket now ∧
      rate_limit_evict bucket now
        = bucket.dropWhile (fun t => t < now - RATE_LIMIT_WINDOW_SECONDS) ∧
      (∀ t, t ∈ (rate_limiter q bucket now next).2 → t ∈ bucket) := by
  intro q bucket now next h
  have hres : (rate_limiter q bucket now next).2 = rate_limit_evict bucket now := by
    simp only [rate_limiter, rate_limit_allow] at h ⊢
    by_cases hq : q ≤ (rate_limit_evict bucket now).length
    · rw [if_pos hq]
    · rw [if_neg hq] at h
      simp at h
  refine ⟨hres, rfl, ?_⟩
  intro t ht
  rw [hres] at ht
  unfold rate_limit_evict at ht
  exact mem_of_mem_dropWhile ht

/-- Witness for C10: quota 1, bucket `[0]`, request at time 2. -/
theorem c10_reject_no_record_witness :
    (rate_limiter 1 [0] 2 rate_limited_response).2
      = rate_limit_evict [0] 2 :=
  (c10_reject_no_record 1 [0] 2 rate_limited_response (by decide)).1

/-- Claim C8, counterexample: the rate-limit rejection response is built
directly in the middleware, bypassing the HTTPException handler; its 429
body is `{"detail": "rate limit exceeded"}` with no `"ok"` key, so not
every error response has the shape `{"ok": false, "detail": ...}`. -/
theorem c8_counterexample :
    (rate_limiter 0 [] 0 (http_exception_handler ⟨400, "x"⟩)).1.status_code = 429 ∧
    ((rate_limiter 0 [] 0 (http_exception_handler ⟨400, "x"⟩)).1.body.find?
      (fun p => p.1 = "ok")) = none ∧
    (rate_limiter 0 [] 0 (http_exception_handler ⟨400, "x"⟩)).1.body
      = [("detail", .s "rate limit exceeded")] := by
  refine ⟨rfl, rfl, rfl⟩

/-- Claim C8 (amended): every error response produced through the two
exception handlers (Unauthorized, BadRequest, NotFound, InternalError,
and any unhandled exception) has body exactly
`{"ok": false, "detail": "<message>"}` with the handler's status, and an
unhandled internal error yields a fixed generic 500 body that carries no
information from the exception; the one exception to the shape is the
rate-limit 429, whose body is `{"detail": "rate limit exceeded"}`
without the `"ok"` field. -/
theorem c8_error_shape_amended :
    (∀ e : HTTPErr, http_exception_handler e
      = ⟨e.status, [("ok", .b false), ("detail", .s e.detail)]⟩) ∧
    (∀ msg, unhandled_exception_handler msg
      = ⟨500, [("ok", .b false), ("detail", .s "internal server error")]⟩) ∧
    (∀ msg msg', unhandled_exception_handler msg
      = unhandled_exception_handler msg') ∧
    rate_limited_response = ⟨429, [("detail", .s "rate limit exceeded")]⟩ := by
  exact ⟨fun e => rfl, fun msg => rfl, fun msg msg' => rfl, rfl⟩

/-- Claim C9: a `POST /deploy` body that is valid JSON but not a JSON
object makes `payload.get("stack")` raise, the exception reaches the
generic handler, and the caller receives
`500 {"ok": false, "detail": "internal server error"}` (not a 400); no
command is executed. -/
theorem c9_nonobject_payload :
    ∀ (secret : List Nat) (fs : FS) (stacks_root : List String)
      (T : DeployTimeouts) (runner : String → CmdOutcome)
      (sig : String) (body : List Nat) (v : JVal),
      verify_signature secret sig body = .ok () →
      v.isObj = false →
      ∃ m, deploy_body secret fs stacks_root T runner sig body (some v)
          = (.pyError m, []) ∧
        app_boundary (deploy_body secret fs stacks_root T runner sig body (some v)).1
          = .inl ⟨500, [("ok", .b false), ("detail", .s "internal server error")]⟩ := by
  intro secret fs stacks_root T runner sig body v hsig hobj
  have hget : pyGet v "stack"
      = .error "AttributeError: object has no attribute get" := by
    cases v with
    | obj fields => simp [JVal.isObj] at hobj
    | arr items => rfl
    | str s => rfl
    | num n => rfl
    | bool b => rfl
    | null => rfl
  refine ⟨"AttributeError: object has no attribute get", ?_, ?_⟩
  · unfold deploy_body
    rw [hsig]
    simp only []
    rw [hget]
  · unfold deploy_body
    rw [hsig]
    simp only []
    rw [hget]
    rfl

/-- Witness for C9: an empty body signed correctly, parsing to the JSON
array `[]`. -/
theorem c9_nonobject_payload_witness :
    ∃ m, deploy_body (strBytes "k")
        ⟨fun _ => ["stacks", "web"], fun _ => some ["stacks"],
         fun _ => true, fun _ => true⟩
        ["stacks"] {} (fun _ => .timedOut "t" 0)
        (compute_signature (strBytes "k") []) [] (some (.arr []))
        = (.pyError m, []) ∧
      app_boundary (deploy_body (strBytes "k")
        ⟨fun _ => ["stacks", "web"], fun _ => some ["stacks"],
         fun _ => true, fun _ => true⟩
        ["stacks"] {} (fun _ => .timedOut "t" 0)
        (compute_signature (strBytes "k") []) [] (some (.arr []))).1
        = .inl ⟨500, [("ok", .b false), ("detail", .s "internal server error")]⟩ :=
  c9_nonobject_payload (strBytes "k") _ _ _ _ _ [] (.arr []) rfl rfl

end Deployer
